import Mathlib

/-!
Verification of the reduction-analysis and library-call-classification layer
declared in `src/tensorflow/compiler/xla/service/gpu/ir_emission_utils.h`.

The repository snapshot contains only the header: the declarations, their
documentation comments, the inline function `AreFusedReductionOutputsConsistent`
and the numeric constants (`kWarpSize`, `kMinThreadsXRowReduction`,
`kBatchedReductionRaceFreeBound`).  The bodies of the declared functions are
not part of the snapshot, so they are modelled here from the specification's
description of each component; every such definition is marked
`Modelled from the spec:` in its documentation comment.
-/

namespace XlaGpu

/-- Warp size constant, from the header (`constexpr int64_t kWarpSize = 32`). -/
def kWarpSize : Nat := 32

/-- Minimum threads per block for a row reduction, from the header
(`constexpr int64_t kMinThreadsXRowReduction = 1024`). -/
def kMinThreadsXRowReduction : Nat := 1024

/-- Bound on the batch dimension for race-free batched row reductions, from the
header (`static constexpr int64_t kBatchedReductionRaceFreeBound = 8`). -/
def kBatchedReductionRaceFreeBound : Nat := 8

/-- A shape: logical dimension sizes plus a layout, given as the permutation of
logical dimension indices in minor-to-major order (the XLA layout convention
described in the spec's data model: "an ordered sequence of dimension sizes
plus a permutation describing physical major-to-minor dimension order"). -/
structure Shape where
  dims : List Nat
  minorToMajor : List Nat
deriving DecidableEq

/-- A shape is well formed when its layout is a permutation of the logical
dimension indices. -/
def Shape.WellFormed (s : Shape) : Prop :=
  s.minorToMajor.Perm (List.range s.dims.length)

/-- Total element count of a shape: the product of all dimension sizes. -/
def Shape.elementsIn (s : Shape) : Nat := s.dims.prod

/-- The dimensions of `s` listed in physical major-to-minor order, each paired
with the flag "this dimension is in the reduced set". -/
def Shape.physicalPairs (s : Shape) (reduced : List Nat) : List (Nat × Bool) :=
  s.minorToMajor.reverse.map (fun i => (s.dims.getD i 0, decide (i ∈ reduced)))

/-- Whether all `true` entries of a boolean list form one contiguous run.
Skips a leading block of `false`, then requires that after the block of `true`
only `false` remains. -/
def contiguousTrueRun : List Bool → Bool
  | [] => true
  | false :: rest => contiguousTrueRun rest
  | true :: rest => (rest.dropWhile (fun b => b)).all (fun b => !b)

/-- The reduced/kept flags of the non-degenerate dimensions of `s`, in physical
major-to-minor order: size-1 dimensions are elided. -/
def elidedFlags (s : Shape) (reduced : List Nat) : List Bool :=
  ((s.physicalPairs reduced).filter (fun p => p.1 != 1)).map (fun p => p.2)

/-- Modelled from the spec: the body of `IsReductionFromOrToContiguousDimensions`
(declared at `ir_emission_utils.h:191`) is not in the snapshot.  Per spec §4.1:
true iff, when dimensions are listed in physical (major-to-minor) order with
size-1 dimensions elided, either the reduced-dimension positions form one
contiguous run or the non-reduced (kept) positions form one contiguous run. -/
def IsReductionFromOrToContiguousDimensions (s : Shape) (reduced : List Nat) : Bool :=
  contiguousTrueRun (elidedFlags s reduced) ||
    contiguousTrueRun ((elidedFlags s reduced).map (fun b => !b))

/-- Prepends one dimension (size `n`, reduced-flag `f`) to an already coalesced
band list, merging it into the first band when the flags agree. -/
def coalesceStep (n : Nat) (f : Bool) : List (Bool × Nat) → List (Bool × Nat)
  | [] => [(f, n)]
  | (g, m) :: bs => if f == g then (f, n * m) :: bs else (f, n) :: (g, m) :: bs

/-- Coalesces maximal adjacent runs of dimensions with the same reduced/kept
flag into bands, each band recording the common flag and the product of the
run's sizes. -/
def coalesce : List (Nat × Bool) → List (Bool × Nat)
  | [] => []
  | (n, f) :: rest => coalesceStep n f (coalesce rest)

/-- The coalesced bands of a shape under a reduced-dimension set, listed
minor-most first. -/
def bandsOf (s : Shape) (reduced : List Nat) : List (Bool × Nat) :=
  (coalesce (s.physicalPairs reduced)).reverse

/-- Result of the reduction geometry builder, mirroring the header's
`ReductionDimensions` struct (`ir_emission_utils.h:202`): a row/column flag and
the three contiguous components `[depth, height, width]` (major-to-minor). -/
structure ReductionDimensions where
  is_row_reduction : Bool
  depth : Nat
  height : Nat
  width : Nat
deriving DecidableEq

/-- Modelled from the spec: the body of `GetReductionKindAndContiguousComponents`
(declared at `ir_emission_utils.h:220`) is not in the snapshot.  Per spec §4.2:
walk the dimensions in physical order, coalescing maximal contiguous runs that
are uniformly reduced or uniformly kept; the minor-most band is `width`, the
band above it is `height`, and `depth` is the product of everything outer;
missing bands default to size 1; the reduction is a row reduction exactly when
the minor-most band is a reduced run. -/
def GetReductionKindAndContiguousComponents (s : Shape) (reduced : List Nat) :
    ReductionDimensions :=
  match bandsOf s reduced with
  | [] => ⟨true, 1, 1, 1⟩
  | (f, w) :: rest =>
    ⟨f, ((rest.drop 1).map Prod.snd).prod, ((rest.head?.map Prod.snd).getD 1), w⟩

/-- Device capability descriptor, mirroring `se::CudaComputeCapability`
(a compute tier version pair); per the spec it is an opaque read-only input of
the tiling selector. -/
structure CudaComputeCapability where
  major : Nat
  minor : Nat
deriving DecidableEq

/-- Modelled from the spec: the body of `GetReductionTiling` (declared at
`ir_emission_utils.h:226`) is not in the snapshot.  Per spec §4.3 and testable
property 6: for row reductions the `depth` (batch) tile is capped by the fixed
bound `kBatchedReductionRaceFreeBound`, and the width tile is 1 unless
`depth*height` already reaches the minimum-occupancy thread count
`kMinThreadsXRowReduction`, in which case the tile scales up with `width`
(capped at the warp width) so each thread consumes multiple contiguous
elements; for column reductions tiling happens along the reduced `height` band,
capped at the warp width.  Each factor is clamped to stay positive and at most
the corresponding geometry dimension. -/
def GetReductionTiling (g : ReductionDimensions) (_cc : CudaComputeCapability) :
    Nat × Nat × Nat :=
  if g.is_row_reduction then
    (min g.depth kBatchedReductionRaceFreeBound,
     1,
     if kMinThreadsXRowReduction ≤ g.depth * g.height then
       max 1 (min g.width kWarpSize)
     else 1)
  else
    (1, max 1 (min g.height kWarpSize), 1)

/-- Modelled from the spec: the body of `ReductionIsRaceFree` (declared at
`ir_emission_utils.h:305`) is not in the snapshot.  Per spec §4.4: true iff the
execution units assigned per output-producing group along the reduced band
combine exactly the elements of that band, which requires the reduced band's
tile to evenly divide its extent; the group must fit the fixed capacity
(`kMinThreadsXRowReduction` units per row-reduction group, `kWarpSize` per
column-reduction group), and per §4.3/§9 batched row reductions are only
race-free up to the fixed batch bound `kBatchedReductionRaceFreeBound`. -/
def ReductionIsRaceFree (g : ReductionDimensions) (t : Nat × Nat × Nat) : Bool :=
  if g.is_row_reduction then
    decide (t.2.2 ∣ g.width) &&
      decide (g.width / t.2.2 ≤ kMinThreadsXRowReduction) &&
      decide (g.depth ≤ kBatchedReductionRaceFreeBound)
  else
    decide (t.2.1 ∣ g.height) && decide (g.height / t.2.1 ≤ kWarpSize)

/-- Whether the tile size along the reduced band (width for a row reduction,
height for a column reduction) evenly divides that band's extent. -/
def reducedTileDivides (g : ReductionDimensions) (t : Nat × Nat × Nat) : Bool :=
  if g.is_row_reduction then decide (t.2.2 ∣ g.width) else decide (t.2.1 ∣ g.height)

/-- Opcodes of the computation-graph nodes this layer inspects. -/
inductive HloOpcode
  | kDot
  | kCustomCall
  | kConvolution
  | kCholesky
  | kBatchNormInference
  | kBatchNormTraining
  | kBatchNormGrad
  | kReduce
  | kFusion
  | kOther
deriving DecidableEq

/-- The read-only facts of a computation node that the call classifier
consults: the opcode, the external call-target string (meaningful only for
custom calls), and whether the node is matmul-shaped (the rank/element-type
conditions of a lowerable dot, abstracted to one flag). -/
structure HloInstruction where
  opcode : HloOpcode
  customCallTarget : String
  dotShaped : Bool
deriving DecidableEq

/-- Call-target identifier of the cuBLAS GEMM custom call
(`kGemmCallTarget`, declared at `ir_emission_utils.h:92`). -/
def kGemmCallTarget : String := "__cublas$gemm"

/-- Call-target identifier of the cuDNN forward-inference batch-norm call
(declared at `ir_emission_utils.h:106`). -/
def kCudnnBatchNormForwardInferenceCallTarget : String :=
  "__cudnn$batchNormalizationForwardInference"

/-- Call-target identifier of the cuDNN forward-training batch-norm call
(declared at `ir_emission_utils.h:107`). -/
def kCudnnBatchNormForwardTrainingCallTarget : String :=
  "__cudnn$batchNormalizationForwardTraining"

/-- Call-target identifier of the cuDNN backward batch-norm call
(declared at `ir_emission_utils.h:108`). -/
def kCudnnBatchNormBackwardCallTarget : String :=
  "__cudnn$batchNormalizationBackward"

/-- Call-target identifier of the cuDNN forward convolution call
(declared at `ir_emission_utils.h:145`). -/
def kCudnnConvForwardCallTarget : String := "__cudnn$convForward"

/-- Call-target identifier of the cuDNN backward-input convolution call
(declared at `ir_emission_utils.h:146`). -/
def kCudnnConvBackwardInputCallTarget : String := "__cudnn$convBackwardInput"

/-- Call-target identifier of the cuDNN backward-filter convolution call
(declared at `ir_emission_utils.h:147`). -/
def kCudnnConvBackwardFilterCallTarget : String := "__cudnn$convBackwardFilter"

/-- Call-target identifier of the cuDNN fused bias/activation forward
convolution call (declared at `ir_emission_utils.h:148`). -/
def kCudnnConvBiasActivationForwardCallTarget : String :=
  "__cudnn$convBiasActivationForward"

/-- Call-target identifier of the cuSolver Cholesky call
(declared at `ir_emission_utils.h:169`). -/
def kCusolverCholeskyCallTarget : String := "__cusolver$cholesky"

/-- Modelled from the spec: the body of `IsMatrixMultiplication` (declared at
`ir_emission_utils.h:75`) is not in the snapshot.  Per the header comment and
spec §4.5: recognizes a dot/matmul-shaped node that has not yet been rewritten
into a library call. -/
def IsMatrixMultiplication (hlo : HloInstruction) : Bool :=
  decide (hlo.opcode = HloOpcode.kDot) && hlo.dotShaped

/-- Modelled from the spec: the body of `IsCublasGemm` (declared at
`ir_emission_utils.h:80`) is not in the snapshot.  Per the header comment and
spec §4.5: recognizes a matrix multiplication already rewritten into a GEMM
custom call, by call-target string equality against the fixed constant. -/
def IsCublasGemm (hlo : HloInstruction) : Bool :=
  decide (hlo.opcode = HloOpcode.kCustomCall) &&
    decide (hlo.customCallTarget = kGemmCallTarget)

/-- Modelled from the spec: the body of `IsCustomCallToDnnBatchNorm` (declared
at `ir_emission_utils.h:117`) is not in the snapshot.  Per the header comment:
true iff the node is a CustomCall whose call target equals one of the three
`kCudnnBatchNorm...` constants; false for nodes with a `kBatchNorm` opcode. -/
def IsCustomCallToDnnBatchNorm (hlo : HloInstruction) : Bool :=
  decide (hlo.opcode = HloOpcode.kCustomCall) &&
    (decide (hlo.customCallTarget = kCudnnBatchNormForwardInferenceCallTarget) ||
     decide (hlo.customCallTarget = kCudnnBatchNormForwardTrainingCallTarget) ||
     decide (hlo.customCallTarget = kCudnnBatchNormBackwardCallTarget))

/-- Modelled from the spec: the body of `IsCustomCallToDnnConvolution`
(declared at `ir_emission_utils.h:156`) is not in the snapshot.  Per the header
comment: true iff the node is a CustomCall whose call target equals one of the
four `kCudnnConv...` constants; false for nodes with a `kConvolution` opcode. -/
def IsCustomCallToDnnConvolution (hlo : HloInstruction) : Bool :=
  decide (hlo.opcode = HloOpcode.kCustomCall) &&
    (decide (hlo.customCallTarget = kCudnnConvForwardCallTarget) ||
     decide (hlo.customCallTarget = kCudnnConvBackwardInputCallTarget) ||
     decide (hlo.customCallTarget = kCudnnConvBackwardFilterCallTarget) ||
     decide (hlo.customCallTarget = kCudnnConvBiasActivationForwardCallTarget))

/-- Modelled from the spec: the body of `IsCustomCallToCusolver` (declared at
`ir_emission_utils.h:163`) is not in the snapshot.  Per the header comment:
true iff the node is a CustomCall whose call target equals the
`kCusolverCholeskyCallTarget` constant; false for nodes with a `kCholesky`
opcode. -/
def IsCustomCallToCusolver (hlo : HloInstruction) : Bool :=
  decide (hlo.opcode = HloOpcode.kCustomCall) &&
    decide (hlo.customCallTarget = kCusolverCholeskyCallTarget)

/-- The convolution subkinds, mirroring the header's `CudnnConvKind` enum
(`ir_emission_utils.h:58`). -/
inductive CudnnConvKind
  | kForward
  | kBackwardInput
  | kBackwardFilter
  | kForwardActivation
deriving DecidableEq

/-- The batch-normalization subkinds named by the three batch-norm call-target
constants. -/
inductive CudnnBatchNormKind
  | kForwardInference
  | kForwardTraining
  | kBackward
deriving DecidableEq

/-- Modelled from the spec: the body of `GetCudnnConvKind` (declared at
`ir_emission_utils.h:66`) is not in the snapshot.  Per spec §4.5 and §7:
sub-classifies the call-target identifier of a convolution custom call into a
subkind, and fails with an "unrecognized convolution call target" condition,
reported to the caller (a `StatusOr` in the header, an `Except` here), when the
identifier matches no known subkind. -/
def GetCudnnConvKind (hlo : HloInstruction) : Except String CudnnConvKind :=
  if hlo.customCallTarget = kCudnnConvForwardCallTarget then
    Except.ok CudnnConvKind.kForward
  else if hlo.customCallTarget = kCudnnConvBackwardInputCallTarget then
    Except.ok CudnnConvKind.kBackwardInput
  else if hlo.customCallTarget = kCudnnConvBackwardFilterCallTarget then
    Except.ok CudnnConvKind.kBackwardFilter
  else if hlo.customCallTarget = kCudnnConvBiasActivationForwardCallTarget then
    Except.ok CudnnConvKind.kForwardActivation
  else
    Except.error ("unrecognized convolution call target")

/-- Modelled from the spec: sub-classifies the call-target identifier of a
batch-norm custom call into its subkind, by the same identifier-matching
discipline as the other classifiers (spec §4.5). -/
def GetCudnnBatchNormKind (hlo : HloInstruction) : CudnnBatchNormKind :=
  if hlo.customCallTarget = kCudnnBatchNormForwardInferenceCallTarget then
    CudnnBatchNormKind.kForwardInference
  else if hlo.customCallTarget = kCudnnBatchNormForwardTrainingCallTarget then
    CudnnBatchNormKind.kForwardTraining
  else
    CudnnBatchNormKind.kBackward

/-- The classifier's tagged result, from the spec's data model:
`{NotALibraryCall, Gemm, Convolution(subkind), BatchNorm(subkind), Cholesky}`. -/
inductive CallClassification
  | NotALibraryCall
  | Gemm
  | Convolution (k : CudnnConvKind)
  | BatchNorm (k : CudnnBatchNormKind)
  | Cholesky
deriving DecidableEq

/-- Modelled from the spec: `ClassifyCall` (spec §4.5) is the classifier's
single entry point; its dispatch is not a single function in the header, which
only declares the individual predicates it is built from. -/
def ClassifyCall (hlo : HloInstruction) : CallClassification :=
  if IsCublasGemm hlo then CallClassification.Gemm
  else if IsCustomCallToDnnConvolution hlo then
    match GetCudnnConvKind hlo with
    | Except.ok k => CallClassification.Convolution k
    | Except.error _ => CallClassification.NotALibraryCall
  else if IsCustomCallToDnnBatchNorm hlo then
    CallClassification.BatchNorm (GetCudnnBatchNormKind hlo)
  else if IsCustomCallToCusolver hlo then CallClassification.Cholesky
  else CallClassification.NotALibraryCall

/-- The read-only facts of one output of a fused computation that the
consistency check consults: whether it is itself a reduction, its (operand)
shape, and its reduced-dimension set. -/
structure FusionOutputInfo where
  isReduction : Bool
  shape : Shape
  reduceDims : List Nat
deriving DecidableEq

/-- Modelled from the spec: the body of `IsFusedReductionOutputConsistent`
(declared at `ir_emission_utils.h:254`) is not in the snapshot.  Per spec §4.6:
an output that is itself a reduction must agree with the reference reduction's
geometry classification (row vs column) and contiguous-component sizes; a
non-reduction output must be shape-compatible with the reference. -/
def IsFusedReductionOutputConsistent (inst ref : FusionOutputInfo) : Bool :=
  if inst.isReduction then
    decide (GetReductionKindAndContiguousComponents inst.shape inst.reduceDims =
            GetReductionKindAndContiguousComponents ref.shape ref.reduceDims)
  else
    decide (inst.shape.dims = ref.shape.dims)

/-- Direct embedding of the inline function `AreFusedReductionOutputsConsistent`
(`ir_emission_utils.h:256`): `absl::c_all_of` of the per-output consistency
check over the output instructions. -/
def AreFusedReductionOutputsConsistent (outs : List FusionOutputInfo)
    (first_reduce : FusionOutputInfo) : Bool :=
  outs.all (fun inst => IsFusedReductionOutputConsistent inst first_reduce)

/-- The specification-side notion of contiguity: the entries of `l` equal to
`v` form one contiguous run, i.e. `l` splits as a block of `!v`, then a block
of `v`, then a block of `!v`. -/
def RunContiguous (l : List Bool) (v : Bool) : Prop :=
  ∃ a b c, l = a ++ b ++ c ∧ (∀ x ∈ a, x = !v) ∧ (∀ x ∈ b, x = v) ∧ (∀ x ∈ c, x = !v)

theorem contiguousTrueRun_of_all_false (l : List Bool) (h : ∀ x ∈ l, x = false) :
    contiguousTrueRun l = true := by
  induction l with
  | nil => rfl
  | cons hd tl ih =>
    have hhd := h hd (List.mem_cons_self hd tl)
    subst hhd
    simpa [contiguousTrueRun] using ih (fun x hx => h x (List.mem_cons_of_mem _ hx))

theorem dropWhile_append_of_all_true (b c : List Bool) (h : ∀ x ∈ b, x = true) :
    (b ++ c).dropWhile (fun x => x) = c.dropWhile (fun x => x) := by
  induction b with
  | nil => rfl
  | cons hd tl ih =>
    have hhd := h hd (List.mem_cons_self hd tl)
    subst hhd
    simpa using ih (fun x hx => h x (List.mem_cons_of_mem _ hx))

theorem contiguousTrueRun_eq_true_iff (l : List Bool) :
    contiguousTrueRun l = true ↔ RunContiguous l true := by
  induction l with
  | nil =>
    constructor
    · intro _
      exact ⟨[], [], [], rfl, by simp, by simp, by simp⟩
    · intro _
      rfl
  | cons hd tl ih =>
    cases hd with
    | false =>
      rw [show contiguousTrueRun (false :: tl) = contiguousTrueRun tl from rfl]
      constructor
      · intro h
        obtain ⟨a, b, c, heq, ha, hb, hc⟩ := ih.mp h
        exact ⟨false :: a, b, c, by simp [heq], by
          intro x hx
          rcases List.mem_cons.mp hx with h1 | h2
          · simpa using h1
          · exact ha x h2, hb, hc⟩
      · rintro ⟨a, b, c, heq, ha, hb, hc⟩
        cases a with
        | cons ah at' =>
          have : ah = false := by simpa using ha ah (List.mem_cons_self ah at')
          subst this
          simp only [List.cons_append, List.cons.injEq] at heq
          exact ih.mpr ⟨at', b, c, heq.2,
            fun x hx => ha x (List.mem_cons_of_mem _ hx), hb, hc⟩
        | nil =>
          simp only [List.nil_append] at heq
          cases b with
          | cons bh bt =>
            have hbh : bh = true := hb bh (List.mem_cons_self bh bt)
            rw [List.cons_append] at heq
            cases heq
            cases hbh
          | nil =>
            simp only [List.nil_append] at heq
            apply contiguousTrueRun_of_all_false
            intro x hx
            have : x ∈ c := by rw [← heq]; exact List.mem_cons_of_mem _ hx
            simpa using hc x this
    | true =>
      rw [show contiguousTrueRun (true :: tl) =
            (tl.dropWhile (fun b => b)).all (fun b => !b) from rfl]
      constructor
      · intro h
        refine ⟨[], true :: tl.takeWhile (fun b => b), tl.dropWhile (fun b => b),
          by simp, by simp, ?_, ?_⟩
        · intro x hx
          rcases List.mem_cons.mp hx with h1 | h2
          · exact h1
          · exact List.mem_takeWhile_imp h2
        · intro x hx
          have := List.all_eq_true.mp h x hx
          simpa using this
      · rintro ⟨a, b, c, heq, ha, hb, hc⟩
        cases a with
        | cons ah at' =>
          have : ah = false := by simpa using ha ah (List.mem_cons_self ah at')
          subst this
          rw [List.cons_append, List.cons_append] at heq
          cases heq
        | nil =>
          simp only [List.nil_append] at heq
          cases b with
          | nil =>
            simp only [List.nil_append] at heq
            have : (true : Bool) = false := by
              simpa using hc true (by rw [← heq]; exact List.mem_cons_self _ _)
            cases this
          | cons bh bt =>
            rw [List.cons_append] at heq
            have htl : tl = bt ++ c := (List.cons.injEq .. ▸ heq).2
            rw [htl, dropWhile_append_of_all_true bt c
              (fun x hx => hb x (List.mem_cons_of_mem _ hx))]
            apply List.all_eq_true.mpr
            intro x hx
            have hxc : x ∈ c := (List.dropWhile_sublist _).mem hx
            simpa using hc x hxc

theorem runContiguous_map_not (l : List Bool) (v : Bool) (h : RunContiguous l v) :
    RunContiguous (l.map (fun b => !b)) (!v) := by
  obtain ⟨a, b, c, heq, ha, hb, hc⟩ := h
  refine ⟨a.map (fun b => !b), b.map (fun b => !b), c.map (fun b => !b),
    by rw [heq]; simp, ?_, ?_, ?_⟩
  · intro x hx
    obtain ⟨y, hy, hxy⟩ := List.mem_map.mp hx
    rw [← hxy, ha y hy, Bool.not_not]
  · intro x hx
    obtain ⟨y, hy, hxy⟩ := List.mem_map.mp hx
    rw [← hxy, hb y hy]
  · intro x hx
    obtain ⟨y, hy, hxy⟩ := List.mem_map.mp hx
    rw [← hxy, hc y hy, Bool.not_not]

theorem map_not_map_not (l : List Bool) :
    (l.map (fun b => !b)).map (fun b => !b) = l := by
  rw [List.map_map]
  have h : ((fun b => !b) ∘ fun b : Bool => !b) = fun b : Bool => b := by
    funext b
    simp [Function.comp]
  rw [h, List.map_id']

theorem coalesceStep_ne_nil (n : Nat) (f : Bool) (l : List (Bool × Nat)) :
    coalesceStep n f l ≠ [] := by
  cases l with
  | nil => simp [coalesceStep]
  | cons q bs =>
    obtain ⟨g, m⟩ := q
    simp only [coalesceStep]
    by_cases hfg : (f == g) = true
    · rw [if_pos hfg]
      simp
    · rw [if_neg hfg]
      simp

theorem coalesce_eq_nil_iff (l : List (Nat × Bool)) : coalesce l = [] ↔ l = [] := by
  cases l with
  | nil => simp [coalesce]
  | cons p rest =>
    obtain ⟨n, f⟩ := p
    simp only [coalesce]
    constructor
    · intro h
      exact absurd h (coalesceStep_ne_nil n f (coalesce rest))
    · intro h
      cases h

theorem getLast?_cons_of_ne_nil {α : Type} (a : α) (l : List α) (h : l ≠ []) :
    (a :: l).getLast? = l.getLast? := by
  cases l with
  | nil => exact absurd rfl h
  | cons b t => exact List.getLast?_cons_cons

theorem coalesce_getLast_flag (l : List (Nat × Bool)) :
    ((coalesce l).getLast?).map Prod.fst = (l.getLast?).map Prod.snd := by
  induction l with
  | nil => rfl
  | cons p rest ih =>
    obtain ⟨n, f⟩ := p
    simp only [coalesce]
    cases h : coalesce rest with
    | nil =>
      have hrest : rest = [] := (coalesce_eq_nil_iff rest).mp h
      subst hrest
      rfl
    | cons q bs =>
      obtain ⟨g, m⟩ := q
      have hrest : rest ≠ [] := by
        intro hr
        rw [hr] at h
        simp [coalesce] at h
      rw [h] at ih
      rw [getLast?_cons_of_ne_nil _ rest hrest, ← ih]
      simp only [coalesceStep]
      by_cases hfg : (f == g) = true
      · rw [if_pos hfg]
        cases bs with
        | nil =>
          have hf : f = g := eq_of_beq hfg
          simp [hf]
        | cons b2 bs2 =>
          rw [List.getLast?_cons_cons, List.getLast?_cons_cons]
      · rw [if_neg hfg, List.getLast?_cons_cons]

theorem coalesce_prod (l : List (Nat × Bool)) :
    ((coalesce l).map Prod.snd).prod = (l.map Prod.fst).prod := by
  induction l with
  | nil => rfl
  | cons p rest ih =>
    obtain ⟨n, f⟩ := p
    simp only [coalesce]
    cases h : coalesce rest with
    | nil =>
      have hrest : rest = [] := (coalesce_eq_nil_iff rest).mp h
      subst hrest
      simp [coalesceStep]
    | cons q bs =>
      obtain ⟨g, m⟩ := q
      rw [h] at ih
      simp only [List.map_cons, List.prod_cons] at ih
      simp only [coalesceStep]
      by_cases hfg : (f == g) = true
      · rw [if_pos hfg]
        simp only [List.map_cons, List.prod_cons]
        rw [← ih]
        ring
      · rw [if_neg hfg]
        simp only [List.map_cons, List.prod_cons]
        rw [← ih]

theorem geometry_dims_prod (s : Shape) (r : List Nat) :
    (GetReductionKindAndContiguousComponents s r).depth *
      (GetReductionKindAndContiguousComponents s r).height *
      (GetReductionKindAndContiguousComponents s r).width
      = ((s.physicalPairs r).map Prod.fst).prod := by
  have hco : ((s.physicalPairs r).map Prod.fst).prod
      = ((bandsOf s r).map Prod.snd).prod := by
    rw [← coalesce_prod, bandsOf, List.map_reverse, List.prod_reverse]
  rw [hco]
  cases hB : bandsOf s r with
  | nil => simp [GetReductionKindAndContiguousComponents, hB]
  | cons b rest =>
    obtain ⟨f, w⟩ := b
    cases rest with
    | nil => simp [GetReductionKindAndContiguousComponents, hB]
    | cons b2 rr =>
      obtain ⟨g, hh⟩ := b2
      simp only [GetReductionKindAndContiguousComponents, hB, List.map_cons,
        List.prod_cons, List.drop_succ_cons, List.drop_zero, List.head?_cons,
        Option.map_some', Option.getD_some]
      ring

theorem map_getD_range (l : List Nat) :
    (List.range l.length).map (fun i => l.getD i 0) = l := by
  apply List.ext_getElem
  · simp
  · intro i h1 h2
    simp [List.getD_eq_getElem, List.getElem?_eq_getElem h2]

theorem physicalPairs_prod (s : Shape) (r : List Nat) (hwf : s.WellFormed) :
    ((s.physicalPairs r).map Prod.fst).prod = s.dims.prod := by
  rw [Shape.physicalPairs, List.map_map, List.map_reverse, List.prod_reverse]
  have hfun : (Prod.fst ∘ fun i => (s.dims.getD i 0, decide (i ∈ r)))
      = fun i => s.dims.getD i 0 := rfl
  rw [hfun]
  have hperm := hwf.map (fun i => s.dims.getD i 0)
  rw [hperm.prod_eq, map_getD_range]

/-- C1: for every shape and reduced-dimension set satisfying the contiguity
precondition, the `ReductionDimensions` returned by
`GetReductionKindAndContiguousComponents` satisfies
`depth * height * width` = the product of all dimension sizes of the input
shape (the total element count). -/
theorem geometry_product_invariant (s : Shape) (r : List Nat)
    (hwf : s.WellFormed)
    (_hcontig : IsReductionFromOrToContiguousDimensions s r = true) :
    (GetReductionKindAndContiguousComponents s r).depth *
      (GetReductionKindAndContiguousComponents s r).height *
      (GetReductionKindAndContiguousComponents s r).width = s.elementsIn :=
  (geometry_dims_prod s r).trans (physicalPairs_prod s r hwf)

theorem geometry_product_invariant_witness :
    (GetReductionKindAndContiguousComponents ⟨[8, 1024, 512], [2, 1, 0]⟩ [2]).depth *
      (GetReductionKindAndContiguousComponents ⟨[8, 1024, 512], [2, 1, 0]⟩ [2]).height *
      (GetReductionKindAndContiguousComponents ⟨[8, 1024, 512], [2, 1, 0]⟩ [2]).width
      = Shape.elementsIn ⟨[8, 1024, 512], [2, 1, 0]⟩ :=
  geometry_product_invariant ⟨[8, 1024, 512], [2, 1, 0]⟩ [2]
    (show ([2, 1, 0] : List Nat).Perm (List.range 3) by decide) (by decide)

/-- C2: for every shape and every non-empty set of distinct in-range reduced
dimension indices, `IsReductionFromOrToContiguousDimensions` returns true if
and only if, after eliding size-1 dimensions and listing the remaining
dimensions in physical major-to-minor order, either the reduced-dimension
positions form one contiguous run or the kept positions form one contiguous
run. -/
theorem isReductionContiguous_iff (s : Shape) (r : List Nat)
    (_h1 : r ≠ []) (_h2 : r.Nodup) (_h3 : ∀ i ∈ r, i < s.dims.length) :
    IsReductionFromOrToContiguousDimensions s r = true ↔
      (RunContiguous (elidedFlags s r) true ∨ RunContiguous (elidedFlags s r) false) := by
  rw [IsReductionFromOrToContiguousDimensions, Bool.or_eq_true]
  constructor
  · rintro (h | h)
    · exact Or.inl ((contiguousTrueRun_eq_true_iff _).mp h)
    · refine Or.inr ?_
      have hm := runContiguous_map_not _ true ((contiguousTrueRun_eq_true_iff _).mp h)
      rwa [map_not_map_not] at hm
  · rintro (h | h)
    · exact Or.inl ((contiguousTrueRun_eq_true_iff _).mpr h)
    · refine Or.inr ((contiguousTrueRun_eq_true_iff _).mpr ?_)
      simpa using runContiguous_map_not _ false h

theorem isReductionContiguous_iff_witness :
    IsReductionFromOrToContiguousDimensions ⟨[3, 4, 5], [2, 1, 0]⟩ [1] = true ↔
      (RunContiguous (elidedFlags ⟨[3, 4, 5], [2, 1, 0]⟩ [1]) true ∨
        RunContiguous (elidedFlags ⟨[3, 4, 5], [2, 1, 0]⟩ [1]) false) :=
  isReductionContiguous_iff ⟨[3, 4, 5], [2, 1, 0]⟩ [1] (by decide) (by decide) (by decide)

theorem is_row_eq_last_flag (s : Shape) (r : List Nat) (p : Nat × Bool)
    (hlast : (s.physicalPairs r).getLast? = some p) :
    (GetReductionKindAndContiguousComponents s r).is_row_reduction = p.2 := by
  have hne : s.physicalPairs r ≠ [] := by
    intro h
    rw [h] at hlast
    cases hlast
  have hcne : coalesce (s.physicalPairs r) ≠ [] := by
    intro h
    exact hne ((coalesce_eq_nil_iff _).mp h)
  have hbne : bandsOf s r ≠ [] := by
    intro h
    exact hcne (List.reverse_eq_nil_iff.mp h)
  obtain ⟨b, rest, hB⟩ := List.exists_cons_of_ne_nil hbne
  obtain ⟨f, w⟩ := b
  have h2 : (coalesce (s.physicalPairs r)).getLast? = some (f, w) := by
    rw [← List.head?_reverse]
    have hrb : (coalesce (s.physicalPairs r)).reverse = (f, w) :: rest := hB
    rw [hrb]
    rfl
  have h3 := coalesce_getLast_flag (s.physicalPairs r)
  rw [h2, hlast] at h3
  have hf : f = p.2 := by simpa using h3
  simp only [GetReductionKindAndContiguousComponents, hB]
  exact hf

theorem physicalPairs_getLast (s : Shape) (r : List Nat) (i : Nat) (tl : List Nat)
    (hm : s.minorToMajor = i :: tl) :
    (s.physicalPairs r).getLast? = some (s.dims.getD i 0, decide (i ∈ r)) := by
  rw [Shape.physicalPairs, hm, List.map_reverse, List.getLast?_reverse]
  rfl

/-- C4: for every shape/reduced-set pair satisfying the contiguity
precondition: if the minor-most coalesced band is a reduced run,
`GetReductionKindAndContiguousComponents` returns `is_row_reduction = true`
with `width` equal to that run's size; otherwise it returns
`is_row_reduction = false` with `width` equal to the minor-most kept run's
size and `height` equal to the reduced run above it.  In particular, reducing
only the single minor-most dimension always yields `is_row_reduction = true`,
and reducing a single dimension strictly above the minor-most (hence kept)
dimension yields `is_row_reduction = false`. -/
theorem reduction_kind_classification :
    (∀ (s : Shape) (r : List Nat) (w : Nat) (rest : List (Bool × Nat)),
      IsReductionFromOrToContiguousDimensions s r = true →
      bandsOf s r = (true, w) :: rest →
      (GetReductionKindAndContiguousComponents s r).is_row_reduction = true ∧
        (GetReductionKindAndContiguousComponents s r).width = w) ∧
    (∀ (s : Shape) (r : List Nat) (w hgt : Nat) (rest : List (Bool × Nat)),
      IsReductionFromOrToContiguousDimensions s r = true →
      bandsOf s r = (false, w) :: (true, hgt) :: rest →
      (GetReductionKindAndContiguousComponents s r).is_row_reduction = false ∧
        (GetReductionKindAndContiguousComponents s r).width = w ∧
        (GetReductionKindAndContiguousComponents s r).height = hgt) ∧
    (∀ (s : Shape) (r : List Nat) (i : Nat) (tl : List Nat),
      IsReductionFromOrToContiguousDimensions s r = true →
      s.minorToMajor = i :: tl → r = [i] →
      (GetReductionKindAndContiguousComponents s r).is_row_reduction = true) ∧
    (∀ (s : Shape) (r : List Nat) (i d : Nat) (tl : List Nat),
      IsReductionFromOrToContiguousDimensions s r = true →
      s.minorToMajor = i :: tl → r = [d] → d ≠ i →
      (GetReductionKindAndContiguousComponents s r).is_row_reduction = false) := by
  refine ⟨?_, ?_, ?_, ?_⟩
  · intro s r w rest _ hB
    simp [GetReductionKindAndContiguousComponents, hB]
  · intro s r w hgt rest _ hB
    simp [GetReductionKindAndContiguousComponents, hB]
  · intro s r i tl _ hm hr
    subst hr
    have hlast := physicalPairs_getLast s [i] i tl hm
    have := is_row_eq_last_flag s [i] _ hlast
    simpa using this
  · intro s r i d tl _ hm hr hdi
    subst hr
    have hlast := physicalPairs_getLast s [d] i tl hm
    have := is_row_eq_last_flag s [d] _ hlast
    simpa [List.mem_singleton, Ne.symm hdi] using this

theorem reduction_kind_classification_witness :
    ((GetReductionKindAndContiguousComponents ⟨[4, 5], [1, 0]⟩ [1]).is_row_reduction = true ∧
      (GetReductionKindAndContiguousComponents ⟨[4, 5], [1, 0]⟩ [1]).width = 5) ∧
    ((GetReductionKindAndContiguousComponents ⟨[3, 4, 5], [2, 1, 0]⟩ [1]).is_row_reduction = false ∧
      (GetReductionKindAndContiguousComponents ⟨[3, 4, 5], [2, 1, 0]⟩ [1]).width = 5 ∧
      (GetReductionKindAndContiguousComponents ⟨[3, 4, 5], [2, 1, 0]⟩ [1]).height = 4) ∧
    (GetReductionKindAndContiguousComponents ⟨[4, 5], [1, 0]⟩ [1]).is_row_reduction = true ∧
    (GetReductionKindAndContiguousComponents ⟨[4, 5], [1, 0]⟩ [0]).is_row_reduction = false :=
  ⟨reduction_kind_classification.1 ⟨[4, 5], [1, 0]⟩ [1] 5 [(false, 4)] (by decide) (by decide),
   reduction_kind_classification.2.1 ⟨[3, 4, 5], [2, 1, 0]⟩ [1] 5 4 [(false, 3)]
     (by decide) (by decide),
   reduction_kind_classification.2.2.1 ⟨[4, 5], [1, 0]⟩ [1] 1 [0] (by decide) rfl rfl,
   reduction_kind_classification.2.2.2 ⟨[4, 5], [1, 0]⟩ [0] 1 0 [0] (by decide) rfl rfl
     (by decide)⟩

/-- C3: for every reduction geometry, a tiling whose reduced-band tile size
does not evenly divide that band's extent is never reported race-free by
`ReductionIsRaceFree`; consequently, for a pair of tilings where `T1`'s
reduced-band tile divides the reduced extent and `T2`'s does not, the checker
never returns true for `T2` while returning false for `T1`. -/
theorem raceFree_uneven_division (g : ReductionDimensions) (t1 t2 : Nat × Nat × Nat)
    (_h1 : reducedTileDivides g t1 = true)
    (h2 : reducedTileDivides g t2 = false) :
    ReductionIsRaceFree g t2 = false ∧
      ¬(ReductionIsRaceFree g t2 = true ∧ ReductionIsRaceFree g t1 = false) := by
  have hfalse : ReductionIsRaceFree g t2 = false := by
    rw [ReductionIsRaceFree]
    rw [reducedTileDivides] at h2
    by_cases hrow : g.is_row_reduction = true
    · rw [if_pos hrow]
      rw [if_pos hrow] at h2
      rw [h2]
      rfl
    · rw [if_neg hrow]
      rw [if_neg hrow] at h2
      rw [h2]
      rfl
  refine ⟨hfalse, ?_⟩
  rintro ⟨ht2, _⟩
  rw [hfalse] at ht2
  cases ht2

theorem raceFree_uneven_division_witness :
    ReductionIsRaceFree ⟨true, 1, 8192, 512⟩ (1, 1, 3) = false :=
  (raceFree_uneven_division ⟨true, 1, 8192, 512⟩ (1, 1, 32) (1, 1, 3)
    (by decide) (by decide)).1

/-- C5 counterexample: for the shape `[8, 1024, 512]` (major-to-minor)
reducing dimension index 2, the geometry builder coalesces the two kept
dimensions into a single band, so the geometry is `depth = 1, height = 8192`,
not `dims = [8, 1024, 512]` as the claim states. -/
theorem end_to_end_scenario_counterexample :
    (GetReductionKindAndContiguousComponents ⟨[8, 1024, 512], [2, 1, 0]⟩ [2]).depth = 1 ∧
    (GetReductionKindAndContiguousComponents ⟨[8, 1024, 512], [2, 1, 0]⟩ [2]).height = 8192 := by
  decide

/-- C5 (amended): for the shape `[8, 1024, 512]` (major-to-minor) reducing
dimension index 2: the contiguity check returns true; the geometry is
`{is_row_reduction = true, dims = [1, 8192, 512]}` (the two kept dimensions
coalesce into the height band); with the warp width 32 and minimum threshold
1024 the tiling selects a width tile strictly greater than 1; and
`ReductionIsRaceFree` returns true for that geometry and tiling. -/
theorem end_to_end_scenario_amended :
    IsReductionFromOrToContiguousDimensions ⟨[8, 1024, 512], [2, 1, 0]⟩ [2] = true ∧
    GetReductionKindAndContiguousComponents ⟨[8, 1024, 512], [2, 1, 0]⟩ [2]
      = ⟨true, 1, 8192, 512⟩ ∧
    1 < (GetReductionTiling
          (GetReductionKindAndContiguousComponents ⟨[8, 1024, 512], [2, 1, 0]⟩ [2])
          ⟨7, 0⟩).2.2 ∧
    ReductionIsRaceFree
      (GetReductionKindAndContiguousComponents ⟨[8, 1024, 512], [2, 1, 0]⟩ [2])
      (GetReductionTiling
        (GetReductionKindAndContiguousComponents ⟨[8, 1024, 512], [2, 1, 0]⟩ [2])
        ⟨7, 0⟩) = true := by
  decide

/-- C6: for every reduction geometry with positive extents and every device
capability, the triple returned by `GetReductionTiling` consists of three
strictly positive integers, each at most the corresponding geometry dimension
`[depth, height, width]`. -/
theorem reductionTiling_bounds (g : ReductionDimensions) (cc : CudaComputeCapability)
    (hd : 1 ≤ g.depth) (hh : 1 ≤ g.height) (hw : 1 ≤ g.width) :
    (1 ≤ (GetReductionTiling g cc).1 ∧ 1 ≤ (GetReductionTiling g cc).2.1 ∧
      1 ≤ (GetReductionTiling g cc).2.2) ∧
    ((GetReductionTiling g cc).1 ≤ g.depth ∧ (GetReductionTiling g cc).2.1 ≤ g.height ∧
      (GetReductionTiling g cc).2.2 ≤ g.width) := by
  by_cases hrow : g.is_row_reduction = true
  · rw [GetReductionTiling, if_pos hrow]
    by_cases hocc : kMinThreadsXRowReduction ≤ g.depth * g.height
    · rw [if_pos hocc]
      exact ⟨⟨le_min hd (by decide), le_refl 1, le_max_left 1 _⟩,
        min_le_left _ _, hh, max_le hw (min_le_left _ _)⟩
    · rw [if_neg hocc]
      exact ⟨⟨le_min hd (by decide), le_refl 1, le_refl 1⟩,
        min_le_left _ _, hh, hw⟩
  · rw [GetReductionTiling, if_neg hrow]
    exact ⟨⟨le_refl 1, le_max_left 1 _, le_refl 1⟩,
      hd, max_le hh (min_le_left _ _), hw⟩

theorem reductionTiling_bounds_witness :
    (1 ≤ (GetReductionTiling ⟨true, 1, 8192, 512⟩ ⟨7, 0⟩).1 ∧
      1 ≤ (GetReductionTiling ⟨true, 1, 8192, 512⟩ ⟨7, 0⟩).2.1 ∧
      1 ≤ (GetReductionTiling ⟨true, 1, 8192, 512⟩ ⟨7, 0⟩).2.2) ∧
    ((GetReductionTiling ⟨true, 1, 8192, 512⟩ ⟨7, 0⟩).1 ≤ 1 ∧
      (GetReductionTiling ⟨true, 1, 8192, 512⟩ ⟨7, 0⟩).2.1 ≤ 8192 ∧
      (GetReductionTiling ⟨true, 1, 8192, 512⟩ ⟨7, 0⟩).2.2 ≤ 512) :=
  reductionTiling_bounds ⟨true, 1, 8192, 512⟩ ⟨7, 0⟩ (by decide) (by decide) (by decide)

/-- C7: for every computation node the call classification yields exactly one
of the five variants; `IsMatrixMultiplication` and `IsCublasGemm` are never
simultaneously true; and a custom-call node whose call target equals the fixed
GEMM identifier constant classifies as `Gemm` and is not
`IsMatrixMultiplication`-true. -/
theorem classifyCall_exclusive (hlo : HloInstruction) :
    (ClassifyCall hlo = CallClassification.NotALibraryCall ∨
      ClassifyCall hlo = CallClassification.Gemm ∨
      (∃ k, ClassifyCall hlo = CallClassification.Convolution k) ∨
      (∃ k, ClassifyCall hlo = CallClassification.BatchNorm k) ∨
      ClassifyCall hlo = CallClassification.Cholesky) ∧
    (¬(IsMatrixMultiplication hlo = true ∧ IsCublasGemm hlo = true)) ∧
    (hlo.opcode = HloOpcode.kCustomCall → hlo.customCallTarget = kGemmCallTarget →
      ClassifyCall hlo = CallClassification.Gemm ∧ IsMatrixMultiplication hlo = false) := by
  refine ⟨?_, ?_, ?_⟩
  · cases h : ClassifyCall hlo with
    | NotALibraryCall => exact Or.inl rfl
    | Gemm => exact Or.inr (Or.inl rfl)
    | Convolution k => exact Or.inr (Or.inr (Or.inl ⟨k, rfl⟩))
    | BatchNorm k => exact Or.inr (Or.inr (Or.inr (Or.inl ⟨k, rfl⟩)))
    | Cholesky => exact Or.inr (Or.inr (Or.inr (Or.inr rfl)))
  · rintro ⟨hmm, hgemm⟩
    simp only [IsMatrixMultiplication, Bool.and_eq_true, decide_eq_true_eq] at hmm
    simp only [IsCublasGemm, Bool.and_eq_true, decide_eq_true_eq] at hgemm
    rw [hmm.1] at hgemm
    exact HloOpcode.noConfusion hgemm.1
  · intro hop htarget
    have hg : IsCublasGemm hlo = true := by
      rw [IsCublasGemm, hop, htarget]
      simp
    constructor
    · rw [ClassifyCall, if_pos hg]
    · rw [IsMatrixMultiplication, hop]
      simp

theorem classifyCall_exclusive_witness :
    ClassifyCall ⟨HloOpcode.kCustomCall, kGemmCallTarget, true⟩ = CallClassification.Gemm ∧
    IsMatrixMultiplication ⟨HloOpcode.kCustomCall, kGemmCallTarget, true⟩ = false :=
  (classifyCall_exclusive ⟨HloOpcode.kCustomCall, kGemmCallTarget, true⟩).2.2 rfl rfl

/-- C8: for every custom-call node, `GetCudnnConvKind` returns a typed error
condition when the call-target identifier matches none of the four known
convolution subkinds, and returns the matching subkind when the identifier
matches one of them. -/
theorem getCudnnConvKind_error_handling (hlo : HloInstruction)
    (_hcc : hlo.opcode = HloOpcode.kCustomCall) :
    ((hlo.customCallTarget ≠ kCudnnConvForwardCallTarget ∧
      hlo.customCallTarget ≠ kCudnnConvBackwardInputCallTarget ∧
      hlo.customCallTarget ≠ kCudnnConvBackwardFilterCallTarget ∧
      hlo.customCallTarget ≠ kCudnnConvBiasActivationForwardCallTarget) →
      ∃ e, GetCudnnConvKind hlo = Except.error e) ∧
    (hlo.customCallTarget = kCudnnConvForwardCallTarget →
      GetCudnnConvKind hlo = Except.ok CudnnConvKind.kForward) ∧
    (hlo.customCallTarget = kCudnnConvBackwardInputCallTarget →
      GetCudnnConvKind hlo = Except.ok CudnnConvKind.kBackwardInput) ∧
    (hlo.customCallTarget = kCudnnConvBackwardFilterCallTarget →
      GetCudnnConvKind hlo = Except.ok CudnnConvKind.kBackwardFilter) ∧
    (hlo.customCallTarget = kCudnnConvBiasActivationForwardCallTarget →
      GetCudnnConvKind hlo = Except.ok CudnnConvKind.kForwardActivation) := by
  refine ⟨?_, ?_, ?_, ?_, ?_⟩
  · rintro ⟨h1, h2, h3, h4⟩
    exact ⟨_, by rw [GetCudnnConvKind, if_neg h1, if_neg h2, if_neg h3, if_neg h4]⟩
  · intro h
    rw [GetCudnnConvKind, if_pos h]
  · intro h
    have e1 : hlo.customCallTarget ≠ kCudnnConvForwardCallTarget := by
      rw [h]; decide
    rw [GetCudnnConvKind, if_neg e1, if_pos h]
  · intro h
    have e1 : hlo.customCallTarget ≠ kCudnnConvForwardCallTarget := by
      rw [h]; decide
    have e2 : hlo.customCallTarget ≠ kCudnnConvBackwardInputCallTarget := by
      rw [h]; decide
    rw [GetCudnnConvKind, if_neg e1, if_neg e2, if_pos h]
  · intro h
    have e1 : hlo.customCallTarget ≠ kCudnnConvForwardCallTarget := by
      rw [h]; decide
    have e2 : hlo.customCallTarget ≠ kCudnnConvBackwardInputCallTarget := by
      rw [h]; decide
    have e3 : hlo.customCallTarget ≠ kCudnnConvBackwardFilterCallTarget := by
      rw [h]; decide
    rw [GetCudnnConvKind, if_neg e1, if_neg e2, if_neg e3, if_pos h]

theorem getCudnnConvKind_error_handling_witness :
    (∃ e, GetCudnnConvKind ⟨HloOpcode.kCustomCall, "not-a-conv-target", false⟩
      = Except.error e) ∧
    GetCudnnConvKind ⟨HloOpcode.kCustomCall, kCudnnConvForwardCallTarget, false⟩
      = Except.ok CudnnConvKind.kForward :=
  ⟨(getCudnnConvKind_error_handling ⟨HloOpcode.kCustomCall, "not-a-conv-target", false⟩
      rfl).1 (by decide),
   (getCudnnConvKind_error_handling ⟨HloOpcode.kCustomCall, kCudnnConvForwardCallTarget,
      false⟩ rfl).2.1 rfl⟩

/-- C9: for every list of fusion output instructions and reference reduction,
`AreFusedReductionOutputsConsistent` returns true if and only if every
instruction in the list individually satisfies
`IsFusedReductionOutputConsistent` with respect to the reference reduction. -/
theorem areFusedReductionOutputsConsistent_iff (outs : List FusionOutputInfo)
    (first_reduce : FusionOutputInfo) :
    AreFusedReductionOutputsConsistent outs first_reduce = true ↔
      ∀ inst ∈ outs, IsFusedReductionOutputConsistent inst first_reduce = true := by
  rw [AreFusedReductionOutputsConsistent]
  exact List.all_eq_true

/-- C10: the library-call predicates return false on the native opcode forms
(`kBatchNorm*`, `kConvolution`, `kCholesky`) and are true only for a
CustomCall node whose call target equals one of the corresponding fixed
identifier constants. -/
theorem customCall_predicates_opcode (hlo : HloInstruction) :
    ((hlo.opcode = HloOpcode.kBatchNormInference ∨
        hlo.opcode = HloOpcode.kBatchNormTraining ∨
        hlo.opcode = HloOpcode.kBatchNormGrad) →
      IsCustomCallToDnnBatchNorm hlo = false) ∧
    (hlo.opcode = HloOpcode.kConvolution → IsCustomCallToDnnConvolution hlo = false) ∧
    (hlo.opcode = HloOpcode.kCholesky → IsCustomCallToCusolver hlo = false) ∧
    (IsCustomCallToDnnBatchNorm hlo = true → hlo.opcode = HloOpcode.kCustomCall ∧
      (hlo.customCallTarget = kCudnnBatchNormForwardInferenceCallTarget ∨
        hlo.customCallTarget = kCudnnBatchNormForwardTrainingCallTarget ∨
        hlo.customCallTarget = kCudnnBatchNormBackwardCallTarget)) ∧
    (IsCustomCallToDnnConvolution hlo = true → hlo.opcode = HloOpcode.kCustomCall ∧
      (hlo.customCallTarget = kCudnnConvForwardCallTarget ∨
        hlo.customCallTarget = kCudnnConvBackwardInputCallTarget ∨
        hlo.customCallTarget = kCudnnConvBackwardFilterCallTarget ∨
        hlo.customCallTarget = kCudnnConvBiasActivationForwardCallTarget)) ∧
    (IsCustomCallToCusolver hlo = true → hlo.opcode = HloOpcode.kCustomCall ∧
      hlo.customCallTarget = kCusolverCholeskyCallTarget) := by
  refine ⟨?_, ?_, ?_, ?_, ?_, ?_⟩
  · intro h
    rcases h with h | h | h <;> simp [IsCustomCallToDnnBatchNorm, h]
  · intro h
    simp [IsCustomCallToDnnConvolution, h]
  · intro h
    simp [IsCustomCallToCusolver, h]
  · intro h
    simp only [IsCustomCallToDnnBatchNorm, Bool.and_eq_true, Bool.or_eq_true,
      decide_eq_true_eq] at h
    exact ⟨h.1, by tauto⟩
  · intro h
    simp only [IsCustomCallToDnnConvolution, Bool.and_eq_true, Bool.or_eq_true,
      decide_eq_true_eq] at h
    exact ⟨h.1, by tauto⟩
  · intro h
    simp only [IsCustomCallToCusolver, Bool.and_eq_true, decide_eq_true_eq] at h
    exact h

theorem customCall_predicates_opcode_witness :
    IsCustomCallToDnnBatchNorm ⟨HloOpcode.kBatchNormTraining, "", false⟩ = false ∧
    IsCustomCallToDnnConvolution ⟨HloOpcode.kConvolution, "", false⟩ = false ∧
    IsCustomCallToCusolver ⟨HloOpcode.kCholesky, "", false⟩ = false ∧
    ((⟨HloOpcode.kCustomCall, kCusolverCholeskyCallTarget, false⟩ : HloInstruction).opcode
        = HloOpcode.kCustomCall ∧
      (⟨HloOpcode.kCustomCall, kCusolverCholeskyCallTarget, false⟩ :
          HloInstruction).customCallTarget = kCusolverCholeskyCallTarget) :=
  ⟨(customCall_predicates_opcode ⟨HloOpcode.kBatchNormTraining, "", false⟩).1
      (Or.inr (Or.inl rfl)),
   (customCall_predicates_opcode ⟨HloOpcode.kConvolution, "", false⟩).2.1 rfl,
   (customCall_predicates_opcode ⟨HloOpcode.kCholesky, "", false⟩).2.2.1 rfl,
   (customCall_predicates_opcode
      ⟨HloOpcode.kCustomCall, kCusolverCholeskyCallTarget, false⟩).2.2.2.2.2 (by decide)⟩

end XlaGpu
